import Mathlib

/-!
Verification of the KardiaMobile 1-lead ECG PDF-to-EDF converter
(`kardiamobile-1l-ecg-convert-pdf-to-edf.py`).

The script's core is three pure stages over the vector drawing primitives of
one PDF page: a baseline locator (`extract_baselines`), a waveform extractor
(`extract_ecg_waveform_rows`), and a voltage reconstructor (the body of
`main`).  We embed those stages shallowly: page coordinates and stroke widths
become rationals, drawing primitives become a `Path` record, and the `main`
pipeline becomes an `Except`-valued function `runMain` whose error branches
are the script's fatal exceptions (the explicit `RuntimeError` and the
`ValueError` numpy raises when reducing an empty signal).
-/

namespace Ecg

/-- An (x, y) point in PDF page space; y increases downward.
Embeds both pymupdf `Point`s and the `(x, y)` tuples the script builds. -/
structure Point where
  x : ℚ
  y : ℚ
  deriving DecidableEq, Repr

/-- One draw command of a path: the script consumes only items whose kind tag
is `"l"` (a line with endpoints `item[1]`, `item[2]`); every other kind is
skipped but still counts toward `len(items)`. -/
inductive Item where
  | line (p1 p2 : Point)
  | other
  deriving DecidableEq, Repr

/-- A drawing primitive as returned by `page.get_drawings()`.
`color` models `path.get("color")` (`none` = key absent or value `None`).
`widthField` models the raw `"width"` entry: `none` = key absent,
`some none` = value `None`, `some (some w)` = value `w`. -/
structure Path where
  items : List Item
  color : Option (ℚ × ℚ × ℚ)
  widthField : Option (Option ℚ)
  deriving DecidableEq, Repr

/-- `path.get("width", 0)`: a missing key yields `0`, otherwise the stored
value (which may itself be `None`). -/
def effWidth (p : Path) : Option ℚ :=
  match p.widthField with
  | none => some 0
  | some v => v

/-- `width is not None and 0.35 < width < 0.45`: the range test is reached
only when the effective width is an actual number. -/
def widthOk (p : Path) : Bool :=
  match effWidth p with
  | none => false
  | some w => decide ((35 : ℚ)/100 < w) && decide (w < (45 : ℚ)/100)

/-- Baseline classification (script lines 39–44): pure black stroke, width in
the open interval (0.35, 0.45), at least 4 draw commands. -/
def isBaselineCandidate (p : Path) : Bool :=
  decide (p.color = some (0, 0, 0)) && widthOk p && decide (4 ≤ p.items.length)

/-- The y-value a `"l"` item contributes as a candidate baseline segment
(script line 47–50): endpoints with `|p1.y - p2.y| < 0.01` and
`|p2.x - p1.x| > 500`; the collected value is `p1.y`. -/
def lineYValue : Item → Option ℚ
  | Item.line p1 p2 =>
      if |p1.y - p2.y| < (1 : ℚ)/100 ∧ |p2.x - p1.x| > 500 then some p1.y else none
  | Item.other => none

/-- The `y_values` list collected inside a qualifying primitive. -/
def yValues (items : List Item) : List ℚ :=
  items.filterMap lineYValue

/-- `visible = [y for y in y_values if y < 760]` (script line 52). -/
def visibleYs (items : List Item) : List ℚ :=
  (yValues items).filter (fun y => decide (y < 760))

/-- `extract_baselines` (script lines 27–55): scan the paths in order; at the
first classified primitive whose visible horizontal-segment y-values number
at least 4, return the first 4 of them; otherwise return `None`. -/
def extract_baselines : List Path → Option (List ℚ)
  | [] => none
  | p :: ps =>
      if isBaselineCandidate p then
        if 4 ≤ (visibleYs p.items).length then some ((visibleYs p.items).take 4)
        else extract_baselines ps
      else
        extract_baselines ps

/-- A primitive that makes `extract_baselines` return from inside the loop:
it passes the classification rule and holds at least 4 surviving segments. -/
def fullyQualifies (p : Path) : Bool :=
  isBaselineCandidate p && decide (4 ≤ (visibleYs p.items).length)

/-- Waveform classification, the negation of the `continue` test at script
lines 75–81: the path is kept exactly when its color IS pure black
(`color != (0.0, 0.0, 0.0)` triggers `continue`), its width is a number in
(0.35, 0.45), and it has at least 40 draw commands. -/
def isWaveformCandidate (p : Path) : Bool :=
  decide (p.color = some (0, 0, 0)) && widthOk p && decide (40 ≤ p.items.length)

/-- Tail of the point-extraction walk (script lines 88–98) once at least one
point has been appended: `last` is the most recently appended point; the
first endpoint of a line is appended only when it differs from `last` by more
than 0.001 in some axis, the second endpoint is always appended. -/
def extractPointsAux (last : Point) : List Item → List Point
  | [] => []
  | Item.other :: rest => extractPointsAux last rest
  | Item.line p1 p2 :: rest =>
      if |last.x - p1.x| > (1 : ℚ)/1000 ∨ |last.y - p1.y| > (1 : ℚ)/1000 then
        p1 :: p2 :: extractPointsAux p2 rest
      else
        p2 :: extractPointsAux p2 rest

/-- Point extraction from a qualifying primitive (script lines 88–98): while
`points` is empty the first line's first endpoint is appended unconditionally
(`not points` short-circuits the near-duplicate test). -/
def extractPoints : List Item → List Point
  | [] => []
  | Item.other :: rest => extractPoints rest
  | Item.line p1 p2 :: rest => p1 :: p2 :: extractPointsAux p2 rest

/-- `np.mean` of the extracted points' y-coordinates (script line 104),
as an exact rational. -/
def meanY (pts : List Point) : ℚ :=
  (pts.map Point.y).sum / pts.length

/-- The row-selection loop (script lines 105–111): running over the
baselines with their indices, keep the first index attaining the strictly
smallest `|y_center - baseline|`.  The accumulator is the current
`(best_row, min_dist)`; `none` stands for the initial
`best_row = -1, min_dist = inf` state, so an empty baseline list yields
`none` and the `best_row >= 0` guard fails. -/
def bestRowLoop (yc : ℚ) : List ℚ → Nat → Option (Nat × ℚ) → Option (Nat × ℚ)
  | [], _, acc => acc
  | b :: bs, i, acc =>
      let d := |yc - b|
      match acc with
      | none => bestRowLoop yc bs (i + 1) (some (i, d))
      | some (bi, bd) =>
          if d < bd then bestRowLoop yc bs (i + 1) (some (i, d))
          else bestRowLoop yc bs (i + 1) (some (bi, bd))

/-- First-nearest baseline row for a centroid `yc`. -/
def bestRow (yc : ℚ) (baselines : List ℚ) : Option (Nat × ℚ) :=
  bestRowLoop yc baselines 0 none

/-- The decision the loop body of `extract_ecg_waveform_rows` makes for one
path (script lines 69–114): `none` when the path is skipped or dropped,
`some (ri, pts)` when its extracted points `pts` are extended onto row `ri`.
The guards appear in source order: the classification `continue`, the
single-item `continue`, the empty-points `continue`, and the
`best_row >= 0 and min_dist < 80` test. -/
def pathContribution (baselines : List ℚ) (p : Path) : Option (Nat × List Point) :=
  if ¬ isWaveformCandidate p then none
  else if p.items.length = 1 then none
  else if (extractPoints p.items).isEmpty then none
  else
    match bestRow (meanY (extractPoints p.items)) baselines with
    | none => none
    | some (ri, d) => if d < 80 then some (ri, extractPoints p.items) else none

/-- `rows[best_row].extend(points)`: append `pts` to the `ri`-th list. -/
def appendAt (rows : List (List Point)) (ri : Nat) (pts : List Point) :
    List (List Point) :=
  rows.set ri (rows.getD ri [] ++ pts)

/-- Ordering used by `rows[ri].sort(key=lambda p: p[0])`. -/
def xle (p q : Point) : Prop := p.x ≤ q.x

instance : DecidableRel xle := fun p q => inferInstanceAs (Decidable (p.x ≤ q.x))

instance : IsTotal Point xle := ⟨fun p q => le_total p.x q.x⟩

instance : IsTrans Point xle := ⟨fun _ _ _ h h' => le_trans h h'⟩

/-- Python's `list.sort` is a stable sort by the key; insertion sort over
`xle` is stable and sorts by x ascending. -/
def sortByX (pts : List Point) : List Point :=
  pts.insertionSort xle

/-- One iteration of the path loop: apply the path's contribution (if any)
to the row accumulator. -/
def stepRows (baselines : List ℚ) (rows : List (List Point)) (p : Path) :
    List (List Point) :=
  match pathContribution baselines p with
  | none => rows
  | some (ri, pts) => appendAt rows ri pts

/-- `extract_ecg_waveform_rows` (script lines 58–120): rows is the
index-keyed accumulation of every path's contribution
(`rows = {i: [] for i in range(len(baselines))}` then the loop), each row
finally sorted by x. -/
def extract_ecg_waveform_rows (paths : List Path) (baselines : List ℚ) :
    List (List Point) :=
  (paths.foldl (stepRows baselines) (List.replicate baselines.length [])).map sortByX

/-- `points_to_voltage` (script lines 123–129): y increases downward, so
`voltage = (baseline_y - y) / cal_pt_per_mv` for each point. -/
def points_to_voltage (points : List Point) (baseline_y cal_pt_per_mv : ℚ) :
    List ℚ :=
  points.map (fun p => (baseline_y - p.y) / cal_pt_per_mv)

/-- `CAL_PT_PER_MV = 28.346` (script line 139). -/
def CAL_PT_PER_MV : ℚ := 28346 / 1000

/-- `SAMPLE_RATE = 300` Hz (script line 140). -/
def SAMPLE_RATE : ℚ := 300

/-- Tail of the x-deduplication loop (script lines 165–168): `last` is the
x-coordinate of `deduped[-1]`; a point is kept only when its x differs from
it by more than 0.01. -/
def dedupAux (last : Point) : List Point → List Point
  | [] => []
  | p :: ps =>
      if |p.x - last.x| > (1 : ℚ)/100 then p :: dedupAux p ps
      else dedupAux last ps

/-- The whole `deduped` computation: `deduped = [points[0]]` then the loop.
The script only reaches it with a non-empty row; on `[]` we return `[]`. -/
def dedup : List Point → List Point
  | [] => []
  | p :: ps => p :: dedupAux p ps

/-- One iteration of the concatenation loop in `main` (script lines
158–176): an empty row is skipped (contributing no samples), a non-empty row
contributes the voltages of its deduplicated points. -/
def rowVoltages (baseline : ℚ) (points : List Point) : List ℚ :=
  if points.isEmpty then []
  else points_to_voltage (dedup points) baseline CAL_PT_PER_MV

/-- The full concatenated signal `all_voltages` (script lines 156–178): rows
are visited in index order 0, 1, 2, … and their voltage lists appended. -/
def buildSignal (baselines : List ℚ) (rows : List (List Point)) : List ℚ :=
  (List.zipWith rowVoltages baselines rows).flatten

/-- What `main` hands to the output sink: the signal, the printed duration
`len(signal) / SAMPLE_RATE`, and the physical range
`[min - 0.1, max + 0.1]` (script lines 179, 207–211). -/
structure Output where
  signal : List ℚ
  durationSec : ℚ
  physMin : ℚ
  physMax : ℚ
  deriving DecidableEq, Repr

/-- The tail of `main` (script lines 179–217): duration, summary prints and
the physical range handed to the EDF sink.  `signal.min()` on a zero-size
array raises numpy's `ValueError` (script line 184) before the EDF writer is
opened — the error branch. -/
def mkOutput (signal : List ℚ) : Except String Output :=
  match signal.min?, signal.max? with
  | some mn, some mx =>
      Except.ok
        { signal := signal
          durationSec := signal.length / SAMPLE_RATE
          physMin := mn - 1/10
          physMax := mx + 1/10 }
  | _, _ =>
      Except.error "zero-size array to reduction operation minimum which has no identity"

/-- The `main` pipeline (script lines 132–217) from the page's drawing
primitives to the data written to the EDF sink.  The two error branches are
the script's fatal exceptions: the explicit `RuntimeError` when
`extract_baselines` returns `None`, and the `ValueError` inside `mkOutput` —
both fire before the EDF writer is opened, so no output file exists on
either. -/
def runMain (paths : List Path) : Except String Output :=
  match extract_baselines paths with
  | none => Except.error "Could not find baseline grid lines in PDF"
  | some baselines =>
      mkOutput (buildSignal baselines (extract_ecg_waveform_rows paths baselines))

/-! ### Deduplication: helper lemmas -/

/-- Relation holding between consecutive survivors of the x-deduplication. -/
def farX (p q : Point) : Prop := |q.x - p.x| > (1 : ℚ)/100

lemma chain_dedupAux (last : Point) (l : List Point) :
    List.Chain' farX (last :: dedupAux last l) := by
  induction l generalizing last with
  | nil => simp [dedupAux]
  | cons p ps ih =>
      by_cases h : |p.x - last.x| > (1 : ℚ)/100
      · rw [dedupAux, if_pos h]
        exact List.chain'_cons.mpr ⟨h, ih p⟩
      · rw [dedupAux, if_neg h]
        exact ih last

lemma dedupAux_of_chain (last : Point) (l : List Point)
    (h : List.Chain' farX (last :: l)) : dedupAux last l = l := by
  induction l generalizing last with
  | nil => rfl
  | cons q qs ih =>
      rw [List.chain'_cons] at h
      have h1 : |q.x - last.x| > (1 : ℚ)/100 := h.1
      rw [dedupAux, if_pos h1, ih q h.2]

/-- C5: the per-row x-deduplication of the Reconstructor (threshold 0.01,
first point of each cluster kept) is idempotent: merging twice equals
merging once, for every point list. -/
theorem dedup_idempotent : ∀ pts : List Point, dedup (dedup pts) = dedup pts
  | [] => rfl
  | p :: ps => by
      show dedup (p :: dedupAux p ps) = p :: dedupAux p ps
      rw [dedup, dedupAux_of_chain p (dedupAux p ps) (chain_dedupAux p ps)]

/-! ### Voltage conversion -/

/-- C6: voltage conversion maps each point `(x, y)` of a row with baseline
`baseline_y` to `(baseline_y - y) / 28.346` mV; a point at the baseline maps
to exactly 0 mV; decreasing a point's y by `28.346 * k` increases its voltage
by exactly `k` mV; and a point above the baseline (smaller y) yields a
positive voltage. -/
theorem voltage_linear_baseline_relative (bl x x' y k : ℚ) :
    (∀ pts, points_to_voltage pts bl CAL_PT_PER_MV
        = pts.map (fun p => (bl - p.y) / (28346/1000 : ℚ))) ∧
    points_to_voltage [⟨x, bl⟩] bl CAL_PT_PER_MV = [0] ∧
    points_to_voltage [⟨x, y - CAL_PT_PER_MV * k⟩] bl CAL_PT_PER_MV
      = (points_to_voltage [⟨x', y⟩] bl CAL_PT_PER_MV).map (fun v => v + k) ∧
    (y < bl → 0 < (bl - y) / CAL_PT_PER_MV) := by
  refine ⟨fun pts => rfl, ?_, ?_, ?_⟩
  · simp [points_to_voltage]
  · simp only [points_to_voltage, List.map_cons, List.map_nil, List.cons.injEq,
      and_true]
    have hc : CAL_PT_PER_MV ≠ 0 := by norm_num [CAL_PT_PER_MV]
    field_simp
    ring
  · intro h
    exact div_pos (sub_pos.mpr h) (by norm_num [CAL_PT_PER_MV])

/-- Closed instance of `voltage_linear_baseline_relative` at baseline 100,
point y 99 (above the baseline). -/
theorem voltage_linear_baseline_relative_witness :
    (0 : ℚ) < ((100 : ℚ) - 99) / CAL_PT_PER_MV :=
  (voltage_linear_baseline_relative 100 0 0 99 0).2.2.2 (by norm_num)

/-! ### Baseline locator -/

/-- C1: if some primitive passes the baseline classification and contains at
least 4 surviving horizontal segments, then `extract_baselines` returns
exactly the first 4 surviving y-values, in encounter order, of the first
such primitive — so no decoy primitive or decoy segment contributes a
returned value. -/
theorem baseline_locator_first_four (paths : List Path) (p : Path)
    (h : paths.find? fullyQualifies = some p) :
    extract_baselines paths = some ((visibleYs p.items).take 4) := by
  induction paths with
  | nil => simp at h
  | cons q ps ih =>
      by_cases hc : isBaselineCandidate q
      · by_cases hl : 4 ≤ (visibleYs q.items).length
        · have hq : fullyQualifies q = true := by
            simp [fullyQualifies, hc, hl]
          rw [List.find?_cons_of_pos _ hq, Option.some.injEq] at h
          subst h
          rw [extract_baselines, if_pos hc, if_pos hl]
        · have hq : ¬ (fullyQualifies q = true) := by
            simp [fullyQualifies, hl]
          rw [List.find?_cons_of_neg _ (by simpa using hq)] at h
          rw [extract_baselines, if_pos hc, if_neg hl]
          exact ih h
      · have hq : ¬ (fullyQualifies q = true) := by
          simp [fullyQualifies, hc]
        rw [List.find?_cons_of_neg _ (by simpa using hq)] at h
        rw [extract_baselines, if_neg hc]
        exact ih h

/-- A long horizontal line at height `b` (span 590 > 500). -/
def hline (b : ℚ) : Item := Item.line ⟨10, b⟩ ⟨600, b⟩

/-- The genuine baseline/grid primitive of the demo page: black, width 0.4,
7 commands, containing the 4 row baselines at y = 100, 300, 500, 700 plus a
short-span segment, a non-horizontal segment, and a segment below the
visible cutoff (y = 800 ≥ 760). -/
def gridPath : Path :=
  { items := [Item.line ⟨10, 50⟩ ⟨100, 50⟩,
              hline 100, hline 300,
              Item.line ⟨10, 200⟩ ⟨600, 300⟩,
              hline 500, hline 700,
              hline 800]
    color := some (0, 0, 0)
    widthField := some (some (2/5)) }

/-- Decoy: right shape but wrong color (red). -/
def decoyRed : Path :=
  { items := [hline 100, hline 300, hline 500, hline 700]
    color := some (1, 0, 0)
    widthField := some (some (2/5)) }

/-- Decoy: right shape but width 1 (outside (0.35, 0.45)). -/
def decoyWide : Path :=
  { items := [hline 100, hline 300, hline 500, hline 700]
    color := some (0, 0, 0)
    widthField := some (some 1) }

/-- Decoy: fewer than 4 draw commands. -/
def decoyFew : Path :=
  { items := [hline 100]
    color := some (0, 0, 0)
    widthField := some (some (2/5)) }

/-- Decoy: passes the classification rule but its 4 segments are all
short-span, so fewer than 4 segments survive filtering. -/
def decoySparse : Path :=
  { items := [Item.line ⟨10, 100⟩ ⟨100, 100⟩, Item.line ⟨10, 300⟩ ⟨100, 300⟩,
              Item.line ⟨10, 500⟩ ⟨100, 500⟩, Item.line ⟨10, 700⟩ ⟨100, 700⟩]
    color := some (0, 0, 0)
    widthField := some (some (2/5)) }

/-- Demo primitive list: four decoys in front of the genuine grid path. -/
def demoPaths : List Path := [decoyRed, decoyWide, decoyFew, decoySparse, gridPath]

/-- Closed instance of `baseline_locator_first_four` on `demoPaths`: the
locator returns the grid path's 4 visible baselines and ignores every
decoy. -/
theorem baseline_locator_first_four_witness :
    extract_baselines demoPaths = some [100, 300, 500, 700] := by
  have hfind : demoPaths.find? fullyQualifies = some gridPath := by
    norm_num [demoPaths, List.find?, fullyQualifies, isBaselineCandidate,
      widthOk, effWidth, visibleYs, yValues, List.filterMap_cons, lineYValue,
      hline, gridPath, decoyRed, decoyWide, decoyFew, decoySparse]
  have h := baseline_locator_first_four demoPaths gridPath hfind
  rw [h]
  norm_num [gridPath, visibleYs, yValues, List.filterMap_cons, lineYValue, hline]

/-- C2: `extract_baselines` returns the baseline-not-found condition exactly
when every primitive either fails the classification rule or holds fewer
than 4 qualifying surviving segments; and on that condition the whole
conversion aborts with the fatal `RuntimeError` before any output exists. -/
theorem baseline_not_found_iff_and_fatal (paths : List Path) :
    (extract_baselines paths = none ↔ ∀ p ∈ paths, fullyQualifies p = false) ∧
    (extract_baselines paths = none →
      runMain paths = Except.error "Could not find baseline grid lines in PDF") := by
  constructor
  · induction paths with
    | nil => simp [extract_baselines]
    | cons q ps ih =>
        by_cases hc : isBaselineCandidate q
        · by_cases hl : 4 ≤ (visibleYs q.items).length
          · have hq : fullyQualifies q = true := by
              simp [fullyQualifies, hc, hl]
            rw [extract_baselines, if_pos hc, if_pos hl]
            simp [List.forall_mem_cons, hq]
          · have hq : fullyQualifies q = false := by
              simp [fullyQualifies, hl]
            rw [extract_baselines, if_pos hc, if_neg hl]
            simp [List.forall_mem_cons, hq, ih]
        · have hq : fullyQualifies q = false := by
            simp [fullyQualifies, hc]
          rw [extract_baselines, if_neg hc]
          simp [List.forall_mem_cons, hq, ih]
  · intro h
    unfold runMain
    rw [h]

/-- Closed instance of `baseline_not_found_iff_and_fatal`: a page holding
only the under-filled `decoySparse` primitive aborts the conversion. -/
theorem baseline_not_found_witness :
    runMain [decoySparse] = Except.error "Could not find baseline grid lines in PDF" :=
  (baseline_not_found_iff_and_fatal [decoySparse]).2 (by
    norm_num [extract_baselines, isBaselineCandidate, widthOk, effWidth,
      visibleYs, yValues, List.filterMap_cons, lineYValue, decoySparse])

/-! ### Row selection: the loop really picks a nearest baseline -/

lemma bestRowLoop_spec (yc : ℚ) :
    ∀ (bs : List ℚ) (i : Nat) (acc : Option (Nat × ℚ)) (ri : Nat) (d : ℚ),
      bestRowLoop yc bs i acc = some (ri, d) →
      (acc = some (ri, d) ∨ ∃ j b, bs[j]? = some b ∧ ri = i + j ∧ d = |yc - b|) ∧
      (∀ b ∈ bs, d ≤ |yc - b|) ∧
      (∀ bi bd, acc = some (bi, bd) → d ≤ bd)
  | [], i, acc, ri, d => by
      intro h
      rw [bestRowLoop] at h
      refine ⟨Or.inl h, by simp, ?_⟩
      intro bi bd hacc
      rw [h] at hacc
      cases hacc
      exact le_refl _
  | b :: bs, i, acc, ri, d => by
      intro h
      match acc with
      | none =>
          rw [bestRowLoop] at h
          obtain ⟨h1, h2, h3⟩ := bestRowLoop_spec yc bs (i + 1) (some (i, |yc - b|)) ri d h
          refine ⟨?_, ?_, by simp⟩
          · rcases h1 with h1 | ⟨j, b', hj, hri, hd⟩
            · cases h1
              exact Or.inr ⟨0, b, by simp, by omega, rfl⟩
            · exact Or.inr ⟨j + 1, b', by simpa using hj, by omega, hd⟩
          · intro b' hb'
            rcases List.mem_cons.mp hb' with rfl | hb'
            · exact h3 i _ rfl
            · exact h2 b' hb'
      | some (bi, bd) =>
          rw [bestRowLoop] at h
          by_cases hlt : |yc - b| < bd
          · rw [if_pos hlt] at h
            obtain ⟨h1, h2, h3⟩ := bestRowLoop_spec yc bs (i + 1) (some (i, |yc - b|)) ri d h
            refine ⟨?_, ?_, ?_⟩
            · rcases h1 with h1 | ⟨j, b', hj, hri, hd⟩
              · cases h1
                exact Or.inr ⟨0, b, by simp, by omega, rfl⟩
              · exact Or.inr ⟨j + 1, b', by simpa using hj, by omega, hd⟩
            · intro b' hb'
              rcases List.mem_cons.mp hb' with rfl | hb'
              · exact h3 i _ rfl
              · exact h2 b' hb'
            · intro bi' bd' hacc
              cases hacc
              exact le_of_lt (lt_of_le_of_lt (h3 i _ rfl) hlt)
          · rw [if_neg hlt] at h
            obtain ⟨h1, h2, h3⟩ := bestRowLoop_spec yc bs (i + 1) (some (bi, bd)) ri d h
            refine ⟨?_, ?_, ?_⟩
            · rcases h1 with h1 | ⟨j, b', hj, hri, hd⟩
              · exact Or.inl h1
              · exact Or.inr ⟨j + 1, b', by simpa using hj, by omega, hd⟩
            · intro b' hb'
              rcases List.mem_cons.mp hb' with rfl | hb'
              · exact le_trans (h3 bi bd rfl) (not_lt.mp hlt)
              · exact h2 b' hb'
            · intro bi' bd' hacc
              cases hacc
              exact h3 _ _ rfl

/-- `bestRow` returns a valid row index whose baseline attains the minimum
distance to the centroid over all baselines. -/
lemma bestRow_nearest (yc : ℚ) (bls : List ℚ) (ri : Nat) (d : ℚ)
    (h : bestRow yc bls = some (ri, d)) :
    ∃ b, bls[ri]? = some b ∧ d = |yc - b| ∧ ∀ b' ∈ bls, d ≤ |yc - b'| := by
  obtain ⟨h1, h2, _⟩ := bestRowLoop_spec yc bls 0 none ri d h
  rcases h1 with h1 | ⟨j, b, hj, hri, hd⟩
  · cases h1
  · exact ⟨b, by simpa [hri] using hj, hd, h2⟩

/-- Unfolding of `pathContribution` on the `some` branch. -/
lemma pathContribution_some (bls : List ℚ) (p : Path) (ri : Nat) (pts : List Point)
    (h : pathContribution bls p = some (ri, pts)) :
    isWaveformCandidate p = true ∧ pts = extractPoints p.items ∧ pts ≠ [] ∧
      ∃ d, bestRow (meanY pts) bls = some (ri, d) ∧ d < 80 := by
  rw [pathContribution] at h
  split at h
  · exact Option.noConfusion h
  next hnc =>
    have hc : isWaveformCandidate p = true := not_not.mp hnc
    split at h
    · exact Option.noConfusion h
    next h1 =>
      split at h
      next he => exact Option.noConfusion h
      next he =>
        split at h
        next hbnone => exact Option.noConfusion h
        next ri' d hbr =>
          split at h
          next hd =>
            cases h
            exact ⟨hc, rfl, by simpa using he, d, hbr, hd⟩
          next hd => exact Option.noConfusion h

/-! ### C3: the waveform classification rule -/

/-- Modelled from the spec (§4.2), for comparison with the code's
`isWaveformCandidate`: "stroke width lies in (0.35, 0.45) as above, BUT —
unlike the baseline rule — color must NOT be exactly pure black, and the
primitive must contain at least 40 draw commands". -/
def spec_isWaveformStroke (p : Path) : Bool :=
  widthOk p && decide (¬ p.color = some (0, 0, 0)) && decide (40 ≤ p.items.length)

/-- The 4 demo baselines (rows 0–3 at y = 100, 300, 500, 700). -/
def demoBaselines : List ℚ := [100, 300, 500, 700]

/-- A dense non-pure-black (red) stroke of 40 identical line commands at
(100, 100), width 0.4: the spec's waveform rule accepts it, the code's rule
rejects it. -/
def redWave : Path :=
  { items := List.replicate 40 (Item.line ⟨100, 100⟩ ⟨100, 100⟩)
    color := some (1, 0, 0)
    widthField := some (some (2/5)) }

lemma extractPointsAux_same (p : Point) :
    ∀ (n : Nat) (rest : List Item),
      extractPointsAux p (List.replicate n (Item.line p p) ++ rest)
        = List.replicate n p ++ extractPointsAux p rest := by
  intro n
  induction n with
  | zero => simp
  | succ n ih =>
      intro rest
      rw [List.replicate_succ, List.cons_append, extractPointsAux,
        if_neg (by simp), ih, List.replicate_succ, List.cons_append]

lemma extractPoints_block (p : Point) (n : Nat) (rest : List Item) :
    extractPoints (List.replicate (n + 1) (Item.line p p) ++ rest)
      = List.replicate (n + 2) p ++ extractPointsAux p rest := by
  rw [List.replicate_succ, List.cons_append, extractPoints, extractPointsAux_same]
  rw [show n + 2 = (n + 1) + 1 from rfl, List.replicate_succ, List.replicate_succ,
    List.cons_append, List.cons_append]

lemma meanY_replicate (n : Nat) (p : Point) (h : n ≠ 0) :
    meanY (List.replicate n p) = p.y := by
  rw [meanY, List.map_replicate, List.sum_replicate, List.length_replicate,
    nsmul_eq_mul]
  have hn : (n : ℚ) ≠ 0 := Nat.cast_ne_zero.mpr h
  field_simp

/-- The points `redWave` would contribute. -/
lemma redWave_points :
    extractPoints redWave.items = List.replicate 41 (⟨100, 100⟩ : Point) := by
  show extractPoints (List.replicate 40 (Item.line ⟨100, 100⟩ ⟨100, 100⟩)) = _
  rw [show (40 : Nat) = 39 + 1 from rfl, ← List.append_nil
    (List.replicate (39 + 1) (Item.line (⟨100, 100⟩ : Point) ⟨100, 100⟩)),
    extractPoints_block]
  simp [extractPointsAux]

/-- C3 counterexample: `redWave` satisfies the spec's waveform-stroke rule
(non-pure-black, width 0.4, 40 commands) and its centroid is at distance
0 < 80 from the row-0 baseline, yet `extract_ecg_waveform_rows` assigns its
points to no row: the code keeps pure-black strokes only. -/
theorem waveform_color_rule_counterexample :
    spec_isWaveformStroke redWave = true ∧
    (∃ d, bestRow (meanY (extractPoints redWave.items)) demoBaselines = some (0, d) ∧
      d < 80) ∧
    extract_ecg_waveform_rows [redWave] demoBaselines = [[], [], [], []] := by
  refine ⟨?_, ?_, ?_⟩
  · norm_num [spec_isWaveformStroke, widthOk, effWidth, redWave]
  · rw [redWave_points, meanY_replicate 41 _ (by norm_num)]
    refine ⟨0, ?_, by norm_num⟩
    show bestRowLoop 100 demoBaselines 0 none = some (0, 0)
    norm_num [demoBaselines, bestRowLoop]
  · have hc : pathContribution demoBaselines redWave = none := by
      rw [pathContribution, if_pos]
      simp [isWaveformCandidate, redWave]
    simp only [extract_ecg_waveform_rows, List.foldl_cons, List.foldl_nil, stepRows, hc]
    rfl

/-- C3 amended: a primitive contributes points exactly when its stroke color
IS pure black (the code keeps black strokes, not non-black ones), its width
lies strictly in (0.35, 0.45), it has at least 40 draw commands, and its
extracted point list is non-empty; the whole point list goes to a row whose
baseline is nearest to the points' mean y, and only if that nearest distance
is strictly under 80 — otherwise the primitive is silently dropped. -/
theorem waveform_classification_amended (bls : List ℚ) (p : Path) :
    (∀ ri pts, pathContribution bls p = some (ri, pts) →
      p.color = some (0, 0, 0) ∧ widthOk p = true ∧ 40 ≤ p.items.length ∧
      pts = extractPoints p.items ∧
      ∃ b, bls[ri]? = some b ∧ |meanY pts - b| < 80 ∧
        ∀ b' ∈ bls, |meanY pts - b| ≤ |meanY pts - b'|) ∧
    (isWaveformCandidate p = true → ¬ (extractPoints p.items).isEmpty →
      ∀ ri d, bestRow (meanY (extractPoints p.items)) bls = some (ri, d) →
        (d < 80 → pathContribution bls p = some (ri, extractPoints p.items)) ∧
        (80 ≤ d → pathContribution bls p = none)) ∧
    (isWaveformCandidate p = false → pathContribution bls p = none) := by
  refine ⟨?_, ?_, ?_⟩
  · intro ri pts h
    obtain ⟨hc, hpts, _, d, hb, hd⟩ := pathContribution_some bls p ri pts h
    obtain ⟨b, hget, hdb, hmin⟩ := bestRow_nearest _ bls ri d hb
    have hcand := hc
    rw [isWaveformCandidate, Bool.and_eq_true, Bool.and_eq_true] at hcand
    refine ⟨by simpa using hcand.1.1, hcand.1.2, by simpa using hcand.2, hpts, b, hget, ?_, ?_⟩
    · rw [← hdb]
      exact hd
    · intro b' hb'
      rw [← hdb]
      exact hmin b' hb'
  · intro hc he ri d hb
    have h1 : ¬ p.items.length = 1 := by
      rw [isWaveformCandidate, Bool.and_eq_true] at hc
      have := of_decide_eq_true hc.2
      omega
    constructor
    · intro hd
      rw [pathContribution, if_neg (by simp [hc]), if_neg h1, if_neg he, hb]
      exact if_pos hd
    · intro hd
      rw [pathContribution, if_neg (by simp [hc]), if_neg h1, if_neg he, hb]
      exact if_neg (not_lt.mpr hd)
  · intro hc
    rw [pathContribution, if_pos (by simp [hc])]

/-- Closed instance of `waveform_classification_amended`: a black variant of
the dense demo stroke is assigned, whole, to row 0. -/
def blackWave : Path :=
  { items := List.replicate 40 (Item.line ⟨100, 100⟩ ⟨100, 100⟩)
    color := some (0, 0, 0)
    widthField := some (some (2/5)) }

lemma blackWave_points :
    extractPoints blackWave.items = List.replicate 41 (⟨100, 100⟩ : Point) :=
  redWave_points

theorem waveform_classification_amended_witness :
    pathContribution demoBaselines blackWave
      = some (0, extractPoints blackWave.items) := by
  have hc : isWaveformCandidate blackWave = true := by
    norm_num [isWaveformCandidate, widthOk, effWidth, blackWave]
  have he : ¬ (extractPoints blackWave.items).isEmpty := by
    rw [blackWave_points]
    simp
  have hb : bestRow (meanY (extractPoints blackWave.items)) demoBaselines
      = some (0, 0) := by
    rw [blackWave_points, meanY_replicate 41 _ (by norm_num)]
    show bestRowLoop 100 demoBaselines 0 none = some (0, 0)
    norm_num [demoBaselines, bestRowLoop]
  exact ((waveform_classification_amended demoBaselines blackWave).2.1 hc he 0 0 hb).1
    (by norm_num)

/-! ### C4: the point walk and per-row assembly -/

/-- "within 0.001 units in both axes" — the near-duplicate test of the spec's
point-extraction sentence. -/
def nearDup (q p : Point) : Prop :=
  |q.x - p.x| ≤ (1 : ℚ)/1000 ∧ |q.y - p.y| ≤ (1 : ℚ)/1000

instance (q p : Point) : Decidable (nearDup q p) :=
  inferInstanceAs (Decidable (_ ∧ _))

/-- The spec's description of one step of the walk, in the script's own
append style: skip non-line items; for a line, append the first endpoint
unless it is a near-duplicate of the most recently appended point
(`points[-1]`), then always append the second endpoint. -/
def spec_walkStep (pts : List Point) : Item → List Point
  | Item.other => pts
  | Item.line p1 p2 =>
      match pts.getLast? with
      | none => pts ++ [p1, p2]
      | some q => if nearDup q p1 then pts ++ [p2] else pts ++ [p1, p2]

/-- The whole walk as the spec phrases it: fold the step over the items,
starting from the empty point list. -/
def spec_extractPoints (items : List Item) : List Point :=
  items.foldl spec_walkStep []

lemma not_nearDup_iff (q p : Point) :
    ¬ nearDup q p ↔ (|q.x - p.x| > (1 : ℚ)/1000 ∨ |q.y - p.y| > (1 : ℚ)/1000) := by
  rw [nearDup, not_and_or, not_le, not_le]

lemma spec_walk_from (items : List Item) :
    ∀ (acc : List Point) (last : Point), acc.getLast? = some last →
      items.foldl spec_walkStep acc = acc ++ extractPointsAux last items := by
  induction items with
  | nil =>
      intro acc last _
      simp [extractPointsAux]
  | cons it rest ih =>
      intro acc last h
      cases it with
      | other =>
          rw [List.foldl_cons]
          rw [show spec_walkStep acc Item.other = acc from rfl]
          rw [ih acc last h, extractPointsAux]
      | line p1 p2 =>
          rw [List.foldl_cons]
          simp only [List.foldl_cons, spec_walkStep, h]
          by_cases hn : nearDup last p1
          · rw [if_pos hn]
            rw [ih (acc ++ [p2]) p2 (by simp)]
            obtain ⟨hn1, hn2⟩ := hn
            rw [extractPointsAux,
              if_neg (not_or.mpr ⟨not_lt.mpr hn1, not_lt.mpr hn2⟩)]
            simp
          · rw [if_neg hn]
            rw [ih (acc ++ [p1, p2]) p2 (by simp)]
            rw [extractPointsAux, if_pos ((not_nearDup_iff last p1).mp hn)]
            simp

/-- The code's point extraction equals the spec's append-style walk. -/
lemma extractPoints_eq_spec (items : List Item) :
    extractPoints items = spec_extractPoints items := by
  rw [spec_extractPoints]
  induction items with
  | nil => rfl
  | cons it rest ih =>
      cases it with
      | other =>
          rw [List.foldl_cons]
          rw [show spec_walkStep [] Item.other = [] from rfl]
          rw [extractPoints, ih]
      | line p1 p2 =>
          rw [List.foldl_cons]
          rw [show spec_walkStep [] (Item.line p1 p2) = [p1, p2] from rfl]
          rw [extractPoints, spec_walk_from rest [p1, p2] p2 (by simp)]
          simp

/-- All `(row, points)` contributions of the path list, in path order. -/
def contribs (baselines : List ℚ) (paths : List Path) : List (Nat × List Point) :=
  paths.filterMap (pathContribution baselines)

/-- The concatenation, in path order, of the point lists assigned to row
`ri` — what `rows[ri]` holds just before the final per-row sort. -/
def rowConcat (baselines : List ℚ) (paths : List Path) (ri : Nat) : List Point :=
  (((contribs baselines paths).filter (fun c => decide (c.1 = ri))).map Prod.snd).flatten

/-- A contribution's row index is a valid baseline index. -/
lemma pathContribution_index (bls : List ℚ) (p : Path) (ri : Nat) (pts : List Point)
    (h : pathContribution bls p = some (ri, pts)) : ri < bls.length := by
  obtain ⟨_, hpts, _, d, hb, _⟩ := pathContribution_some bls p ri pts h
  obtain ⟨b, hget, _, _⟩ := bestRow_nearest _ bls ri d hb
  by_contra hlt
  rw [List.getElem?_eq_none (not_lt.mp hlt)] at hget
  exact Option.noConfusion hget

lemma appendAt_getElem? (rows : List (List Point)) (ri : Nat) (pts : List Point)
    (rj : Nat) (hri : ri < rows.length) :
    (appendAt rows ri pts)[rj]? =
      if ri = rj then (rows[rj]?).map (· ++ pts) else rows[rj]? := by
  rw [appendAt]
  by_cases h : ri = rj
  · subst h
    rw [if_pos rfl, List.getElem?_set_eq_of_lt _ hri,
      List.getElem?_eq_getElem hri, List.getD_eq_getElem?_getD,
      List.getElem?_eq_getElem hri]
    rfl
  · rw [if_neg h, List.getElem?_set_ne h]

lemma foldl_stepRows_getElem? (bls : List ℚ) (ri : Nat) :
    ∀ (paths : List Path) (rows : List (List Point)), rows.length = bls.length →
      (paths.foldl (stepRows bls) rows)[ri]?
        = (rows[ri]?).map (· ++ rowConcat bls paths ri) := by
  intro paths
  induction paths with
  | nil =>
      intro rows _
      rw [List.foldl_nil]
      rw [show rowConcat bls [] ri = [] from rfl]
      cases rows[ri]? <;> simp
  | cons p paths ih =>
      intro rows hlen
      rw [List.foldl_cons]
      rcases hc : pathContribution bls p with _ | ⟨ci, pts⟩
      · rw [show stepRows bls rows p = rows from by rw [stepRows, hc]]
        rw [ih rows hlen]
        have hr : rowConcat bls (p :: paths) ri = rowConcat bls paths ri := by
          rw [rowConcat, rowConcat, contribs, contribs, List.filterMap_cons_none hc]
        rw [hr]
      · have hci : ci < bls.length := pathContribution_index bls p ci pts hc
        rw [show stepRows bls rows p = appendAt rows ci pts from by rw [stepRows, hc]]
        have hlen2 : (appendAt rows ci pts).length = bls.length := by
          rw [appendAt, List.length_set]
          exact hlen
        rw [ih _ hlen2, appendAt_getElem? rows ci pts ri (hlen ▸ hci)]
        by_cases hir : ci = ri
        · subst hir
          rw [if_pos rfl]
          have hr : rowConcat bls (p :: paths) ci = pts ++ rowConcat bls paths ci := by
            rw [rowConcat, rowConcat, contribs, contribs,
              List.filterMap_cons_some hc, List.filter_cons]
            simp
          rw [hr]
          cases rows[ci]? <;> simp
        · rw [if_neg hir]
          have hr : rowConcat bls (p :: paths) ri = rowConcat bls paths ri := by
            rw [rowConcat, rowConcat, contribs, contribs,
              List.filterMap_cons_some hc, List.filter_cons]
            simp [hir]
          rw [hr]

/-- C4: the extractor's point walk equals the spec's append-style walk
(first endpoint appended only when it is not a near-duplicate of the most
recently appended point, second endpoint always appended); and every row of
the returned structure is a permutation of the concatenation, in path order,
of the points assigned to it, sorted by x ascending. -/
theorem walk_and_rows_sorted_concat (bls : List ℚ) (paths : List Path) :
    (∀ items, extractPoints items = spec_extractPoints items) ∧
    (∀ ri, ri < bls.length →
      ∃ row, (extract_ecg_waveform_rows paths bls)[ri]? = some row ∧
        row.Perm (rowConcat bls paths ri) ∧ List.Sorted xle row) := by
  refine ⟨extractPoints_eq_spec, ?_⟩
  intro ri hri
  rw [extract_ecg_waveform_rows]
  have hrep : (List.replicate bls.length ([] : List Point))[ri]? = some [] := by
    rw [List.getElem?_replicate, if_pos hri]
  have hfill := foldl_stepRows_getElem? bls ri paths
    (List.replicate bls.length []) (by simp)
  rw [hrep] at hfill
  refine ⟨sortByX (rowConcat bls paths ri), ?_, ?_, ?_⟩
  · rw [List.getElem?_map _ _ ri, hfill]
    rfl
  · exact List.perm_insertionSort xle _
  · exact List.sorted_insertionSort xle _

/-- Closed instance of `walk_and_rows_sorted_concat` at row 0 of the
single-path demo page. -/
theorem walk_and_rows_sorted_concat_witness :
    ∃ row, (extract_ecg_waveform_rows [blackWave] demoBaselines)[0]? = some row ∧
      row.Perm (rowConcat demoBaselines [blackWave] 0) ∧ List.Sorted xle row :=
  (walk_and_rows_sorted_concat demoBaselines [blackWave]).2 0
    (by norm_num [demoBaselines])

/-! ### Reconstructor and pipeline: shared helpers -/

lemma length_rowVoltages (b : ℚ) (r : List Point) :
    (rowVoltages b r).length = (dedup r).length := by
  rw [rowVoltages]
  by_cases h : r.isEmpty
  · rw [if_pos h, List.isEmpty_iff.mp h]
    rfl
  · rw [if_neg h, points_to_voltage, List.length_map]

lemma mkOutput_ok (signal : List ℚ) (out : Output)
    (h : mkOutput signal = Except.ok out) :
    ∃ mn mx, signal.min? = some mn ∧ signal.max? = some mx ∧
      out = { signal := signal
              durationSec := signal.length / SAMPLE_RATE
              physMin := mn - 1/10
              physMax := mx + 1/10 } := by
  rw [mkOutput] at h
  split at h
  next mn mx hmn hmx =>
    cases h
    exact ⟨mn, mx, hmn, hmx, rfl⟩
  next => exact Except.noConfusion h

lemma runMain_some (paths : List Path) (bls : List ℚ)
    (hb : extract_baselines paths = some bls) :
    runMain paths
      = mkOutput (buildSignal bls (extract_ecg_waveform_rows paths bls)) := by
  unfold runMain
  rw [hb]

/-- C8: whenever the conversion completes, the physical range written to the
sink is the signal's true minimum widened down by exactly 0.1 mV and its
true maximum widened up by exactly 0.1 mV (and the signal is non-empty). -/
theorem phys_range_margin (paths : List Path) (out : Output)
    (h : runMain paths = Except.ok out) :
    out.signal ≠ [] ∧
    ∃ mn mx, out.signal.min? = some mn ∧ out.signal.max? = some mx ∧
      out.physMin = mn - 1/10 ∧ out.physMax = mx + 1/10 := by
  unfold runMain at h
  split at h
  · exact Except.noConfusion h
  next bls hb =>
    obtain ⟨mn, mx, hmn, hmx, rfl⟩ := mkOutput_ok _ out h
    refine ⟨?_, mn, mx, hmn, hmx, rfl, rfl⟩
    intro hnil
    rw [show ({ signal := buildSignal bls (extract_ecg_waveform_rows paths bls)
                durationSec := (buildSignal bls (extract_ecg_waveform_rows paths bls)).length / SAMPLE_RATE
                physMin := mn - 1/10
                physMax := mx + 1/10 : Output }).signal
        = buildSignal bls (extract_ecg_waveform_rows paths bls) from rfl] at hnil
    rw [hnil] at hmn
    exact Option.noConfusion hmn

lemma buildSignal_all_empty (bls : List ℚ) (rows : List (List Point))
    (h : ∀ r ∈ rows, r = []) : buildSignal bls rows = [] := by
  rw [buildSignal]
  induction bls generalizing rows with
  | nil => simp
  | cons b bs ih =>
      cases rows with
      | nil => simp
      | cons r rs =>
          rw [List.zipWith_cons_cons, List.flatten_cons]
          rw [h r (List.mem_cons_self r rs), ih rs (fun r' hr' => h r' (List.mem_cons_of_mem r hr'))]
          rw [rowVoltages]
          simp

/-- C9: if baseline detection succeeds but every row ends up empty, the run
fails with the zero-size-reduction error (numpy's `ValueError` from
`signal.min()` on the empty concatenated signal) and produces no output. -/
theorem all_rows_empty_fatal (paths : List Path) (bls : List ℚ)
    (h1 : extract_baselines paths = some bls)
    (h2 : ∀ r ∈ extract_ecg_waveform_rows paths bls, r = []) :
    runMain paths
      = Except.error "zero-size array to reduction operation minimum which has no identity" := by
  rw [runMain_some paths bls h1,
    buildSignal_all_empty bls (extract_ecg_waveform_rows paths bls) h2]
  rfl

/-- Closed instance of `all_rows_empty_fatal`: a page holding only the grid
path yields 4 baselines but no waveform points, and the run aborts. -/
theorem all_rows_empty_fatal_witness :
    runMain [gridPath]
      = Except.error "zero-size array to reduction operation minimum which has no identity" := by
  have h1 : extract_baselines [gridPath] = some [100, 300, 500, 700] := by
    norm_num [extract_baselines, isBaselineCandidate, widthOk, effWidth,
      visibleYs, yValues, List.filterMap_cons, lineYValue, hline, gridPath]
  have hc : pathContribution [100, 300, 500, 700] gridPath = none := by
    rw [pathContribution, if_pos]
    norm_num [isWaveformCandidate, gridPath]
  have h2 : ∀ r ∈ extract_ecg_waveform_rows [gridPath] [100, 300, 500, 700], r = [] := by
    simp only [extract_ecg_waveform_rows, List.foldl_cons, List.foldl_nil, stepRows, hc]
    intro r hr
    rcases List.mem_map.mp hr with ⟨r', hr', rfl⟩
    rw [List.eq_of_mem_replicate hr']
    rfl
  exact all_rows_empty_fatal [gridPath] [100, 300, 500, 700] h1 h2

/-- C10: a primitive whose stroke-width entry is absent — the dictionary key
missing (so `path.get("width", 0)` yields 0) or explicitly `None` (so the
`width is not None` guard short-circuits before any threshold comparison) —
is classified neither as baseline nor as waveform and contributes no
baseline y-values and no points. -/
theorem absent_width_excluded (p : Path)
    (h : p.widthField = none ∨ p.widthField = some none) :
    isBaselineCandidate p = false ∧ isWaveformCandidate p = false ∧
    (∀ bls, pathContribution bls p = none) ∧
    (∀ paths, extract_baselines (p :: paths) = extract_baselines paths) := by
  have hw : widthOk p = false := by
    rcases h with h | h
    · norm_num [widthOk, effWidth, h]
    · norm_num [widthOk, effWidth, h]
  refine ⟨by simp [isBaselineCandidate, hw], by simp [isWaveformCandidate, hw], ?_, ?_⟩
  · intro bls
    rw [pathContribution, if_pos]
    simp [isWaveformCandidate, hw]
  · intro paths
    rw [extract_baselines, if_neg]
    simp [isBaselineCandidate, hw]

/-- A primitive whose width entry holds `None`. -/
def noWidthPath : Path :=
  { items := [hline 100], color := some (0, 0, 0), widthField := some none }

/-- Closed instance of `absent_width_excluded` at `noWidthPath`. -/
theorem absent_width_excluded_witness :
    isBaselineCandidate noWidthPath = false ∧ isWaveformCandidate noWidthPath = false :=
  ⟨(absent_width_excluded noWidthPath (Or.inr rfl)).1,
   (absent_width_excluded noWidthPath (Or.inr rfl)).2.1⟩

/-! ### A concrete end-to-end page: 4 baselines, rows with (3, 0, 2, 4)
deduplicated samples -/

/-- A cluster of `n` degenerate line commands at `(x, y)`: a drawn stroke
whose vertices all dedup to one sample. -/
def wseg (x y : ℚ) (n : Nat) : List Item :=
  List.replicate n (Item.line ⟨x, y⟩ ⟨x, y⟩)

/-- Waveform stroke for row 0 (baseline y = 100): 40 commands in 3 clusters. -/
def wave0 : Path :=
  { items := wseg 100 100 20 ++ (wseg 200 100 10 ++ wseg 300 100 10)
    color := some (0, 0, 0)
    widthField := some (some (2/5)) }

/-- Waveform stroke for row 2 (baseline y = 500): 40 commands in 2 clusters. -/
def wave2 : Path :=
  { items := wseg 100 500 20 ++ wseg 200 500 20
    color := some (0, 0, 0)
    widthField := some (some (2/5)) }

/-- Waveform stroke for row 3 (baseline y = 700): 40 commands in 4 clusters. -/
def wave3 : Path :=
  { items := wseg 100 700 10 ++ (wseg 200 700 10 ++ (wseg 300 700 10 ++ wseg 400 700 10))
    color := some (0, 0, 0)
    widthField := some (some (2/5)) }

/-- Demo page: the grid plus waveform strokes for rows 0, 2 and 3 — row 1
receives nothing. -/
def demoWavePaths : List Path := [gridPath, wave0, wave2, wave3]

def pts0 : List Point :=
  List.replicate 21 ⟨100, 100⟩ ++ (List.replicate 11 ⟨200, 100⟩ ++ List.replicate 11 ⟨300, 100⟩)

def pts2 : List Point :=
  List.replicate 21 ⟨100, 500⟩ ++ List.replicate 21 ⟨200, 500⟩

def pts3 : List Point :=
  List.replicate 11 ⟨100, 700⟩ ++ (List.replicate 11 ⟨200, 700⟩ ++
    (List.replicate 11 ⟨300, 700⟩ ++ List.replicate 11 ⟨400, 700⟩))

lemma extractPointsAux_far_block (last p : Point) (n : Nat) (rest : List Item)
    (h : |last.x - p.x| > (1 : ℚ)/1000 ∨ |last.y - p.y| > (1 : ℚ)/1000) :
    extractPointsAux last (List.replicate (n + 1) (Item.line p p) ++ rest)
      = List.replicate (n + 2) p ++ extractPointsAux p rest := by
  rw [List.replicate_succ, List.cons_append, extractPointsAux, if_pos h,
    extractPointsAux_same]
  rw [show n + 2 = (n + 1) + 1 from rfl, List.replicate_succ, List.replicate_succ,
    List.cons_append, List.cons_append]

lemma extractPoints_wave0 : extractPoints wave0.items = pts0 := by
  show extractPoints (wseg 100 100 20 ++ (wseg 200 100 10 ++ wseg 300 100 10)) = pts0
  rw [wseg, wseg, wseg]
  rw [show (20 : Nat) = 19 + 1 from rfl, extractPoints_block]
  rw [show (10 : Nat) = 9 + 1 from rfl,
    extractPointsAux_far_block _ _ _ _ (Or.inl (by norm_num))]
  rw [← List.append_nil (List.replicate (9 + 1) (Item.line (⟨300, 100⟩ : Point) ⟨300, 100⟩)),
    extractPointsAux_far_block _ _ _ _ (Or.inl (by norm_num))]
  rw [pts0]
  rfl

lemma extractPoints_wave2 : extractPoints wave2.items = pts2 := by
  show extractPoints (wseg 100 500 20 ++ wseg 200 500 20) = pts2
  rw [wseg, wseg]
  rw [show (20 : Nat) = 19 + 1 from rfl, extractPoints_block]
  rw [← List.append_nil (List.replicate (19 + 1) (Item.line (⟨200, 500⟩ : Point) ⟨200, 500⟩)),
    extractPointsAux_far_block _ _ _ _ (Or.inl (by norm_num))]
  rw [pts2]
  rfl

lemma extractPoints_wave3 : extractPoints wave3.items = pts3 := by
  show extractPoints
    (wseg 100 700 10 ++ (wseg 200 700 10 ++ (wseg 300 700 10 ++ wseg 400 700 10))) = pts3
  rw [wseg, wseg, wseg, wseg]
  rw [show (10 : Nat) = 9 + 1 from rfl, extractPoints_block]
  rw [extractPointsAux_far_block _ _ _ _ (Or.inl (by norm_num))]
  rw [extractPointsAux_far_block _ _ _ _ (Or.inl (by norm_num))]
  rw [← List.append_nil (List.replicate (9 + 1) (Item.line (⟨400, 700⟩ : Point) ⟨400, 700⟩)),
    extractPointsAux_far_block _ _ _ _ (Or.inl (by norm_num))]
  rw [pts3]
  rfl

/-- Mean y of a list of points that all share one y-coordinate. -/
lemma meanY_eq_of_const (pts : List Point) (c : ℚ)
    (h : ∀ p ∈ pts, p.y = c) (hne : pts ≠ []) : meanY pts = c := by
  have hmap : pts.map Point.y = List.replicate pts.length c := by
    refine List.eq_replicate_iff.mpr ⟨by simp, ?_⟩
    intro b hb
    obtain ⟨p, hp, rfl⟩ := List.mem_map.mp hb
    exact h p hp
  rw [meanY, hmap, List.sum_replicate, nsmul_eq_mul]
  have hn : (pts.length : ℚ) ≠ 0 :=
    Nat.cast_ne_zero.mpr (List.length_pos_of_ne_nil hne).ne'
  field_simp

lemma dedupAux_near_replicate (last q : Point) (n : Nat) (rest : List Point)
    (h : ¬ |q.x - last.x| > (1 : ℚ)/100) :
    dedupAux last (List.replicate n q ++ rest) = dedupAux last rest := by
  induction n with
  | zero => rw [List.replicate, List.nil_append]
  | succ n ih => rw [List.replicate_succ, List.cons_append, dedupAux, if_neg h, ih]

lemma dedup_pts0 : dedup pts0 = [⟨100, 100⟩, ⟨200, 100⟩, ⟨300, 100⟩] := by
  rw [pts0]
  rw [show (21 : Nat) = 20 + 1 from rfl, List.replicate_succ, List.cons_append, dedup]
  rw [dedupAux_near_replicate _ _ 20 _ (by norm_num)]
  rw [show (11 : Nat) = 10 + 1 from rfl, List.replicate_succ, List.cons_append,
    dedupAux, if_pos (by norm_num)]
  rw [dedupAux_near_replicate _ _ 10 _ (by norm_num)]
  rw [List.replicate_succ, dedupAux, if_pos (by norm_num)]
  rw [← List.append_nil (List.replicate 10 (⟨300, 100⟩ : Point)),
    dedupAux_near_replicate _ _ 10 _ (by norm_num)]
  rfl

lemma dedup_pts2 : dedup pts2 = [⟨100, 500⟩, ⟨200, 500⟩] := by
  rw [pts2]
  rw [show (21 : Nat) = 20 + 1 from rfl, List.replicate_succ, List.cons_append, dedup]
  rw [dedupAux_near_replicate _ _ 20 _ (by norm_num)]
  rw [List.replicate_succ, dedupAux, if_pos (by norm_num)]
  rw [← List.append_nil (List.replicate 20 (⟨200, 500⟩ : Point)),
    dedupAux_near_replicate _ _ 20 _ (by norm_num)]
  rfl

lemma dedup_pts3 : dedup pts3 = [⟨100, 700⟩, ⟨200, 700⟩, ⟨300, 700⟩, ⟨400, 700⟩] := by
  rw [pts3]
  rw [show (11 : Nat) = 10 + 1 from rfl, List.replicate_succ, List.cons_append, dedup]
  rw [dedupAux_near_replicate _ _ 10 _ (by norm_num)]
  rw [List.replicate_succ, List.cons_append, dedupAux, if_pos (by norm_num)]
  rw [dedupAux_near_replicate _ _ 10 _ (by norm_num)]
  rw [List.replicate_succ, List.cons_append, dedupAux, if_pos (by norm_num)]
  rw [dedupAux_near_replicate _ _ 10 _ (by norm_num)]
  rw [List.replicate_succ, dedupAux, if_pos (by norm_num)]
  rw [← List.append_nil (List.replicate 10 (⟨400, 700⟩ : Point)),
    dedupAux_near_replicate _ _ 10 _ (by norm_num)]
  rfl

lemma pairwise_xle_replicate (n : Nat) (p : Point) :
    List.Pairwise xle (List.replicate n p) :=
  List.pairwise_replicate.mpr (Or.inr (le_refl p.x))

lemma sorted_pts0 : List.Sorted xle pts0 := by
  rw [pts0]
  refine List.pairwise_append.mpr ⟨pairwise_xle_replicate _ _, ?_, ?_⟩
  · refine List.pairwise_append.mpr
      ⟨pairwise_xle_replicate _ _, pairwise_xle_replicate _ _, ?_⟩
    intro a ha b hb
    rw [List.eq_of_mem_replicate ha, List.eq_of_mem_replicate hb]
    show (100 : ℚ) ≤ 300
    norm_num
  · intro a ha b hb
    rw [List.eq_of_mem_replicate ha]
    rcases List.mem_append.mp hb with hb | hb <;> rw [List.eq_of_mem_replicate hb]
    · show (100 : ℚ) ≤ 200
      norm_num
    · show (100 : ℚ) ≤ 300
      norm_num

lemma sorted_pts2 : List.Sorted xle pts2 := by
  rw [pts2]
  refine List.pairwise_append.mpr
    ⟨pairwise_xle_replicate _ _, pairwise_xle_replicate _ _, ?_⟩
  intro a ha b hb
  rw [List.eq_of_mem_replicate ha, List.eq_of_mem_replicate hb]
  show (100 : ℚ) ≤ 200
  norm_num

lemma sorted_pts3 : List.Sorted xle pts3 := by
  rw [pts3]
  refine List.pairwise_append.mpr ⟨pairwise_xle_replicate _ _, ?_, ?_⟩
  · refine List.pairwise_append.mpr ⟨pairwise_xle_replicate _ _, ?_, ?_⟩
    · refine List.pairwise_append.mpr
        ⟨pairwise_xle_replicate _ _, pairwise_xle_replicate _ _, ?_⟩
      intro a ha b hb
      rw [List.eq_of_mem_replicate ha, List.eq_of_mem_replicate hb]
      show (300 : ℚ) ≤ 400
      norm_num
    · intro a ha b hb
      rw [List.eq_of_mem_replicate ha]
      rcases List.mem_append.mp hb with hb | hb <;> rw [List.eq_of_mem_replicate hb]
      · show (200 : ℚ) ≤ 300
        norm_num
      · show (200 : ℚ) ≤ 400
        norm_num
  · intro a ha b hb
    rw [List.eq_of_mem_replicate ha]
    rcases List.mem_append.mp hb with hb | hb
    · rw [List.eq_of_mem_replicate hb]
      show (100 : ℚ) ≤ 200
      norm_num
    · rcases List.mem_append.mp hb with hb | hb <;> rw [List.eq_of_mem_replicate hb]
      · show (100 : ℚ) ≤ 300
        norm_num
      · show (100 : ℚ) ≤ 400
        norm_num

lemma sortByX_pts0 : sortByX pts0 = pts0 := by
  rw [sortByX]
  exact sorted_pts0.insertionSort_eq

lemma sortByX_pts2 : sortByX pts2 = pts2 := by
  rw [sortByX]
  exact sorted_pts2.insertionSort_eq

lemma sortByX_pts3 : sortByX pts3 = pts3 := by
  rw [sortByX]
  exact sorted_pts3.insertionSort_eq

/-- Shared builder for the `some` branch of `pathContribution`. -/
lemma pathContribution_eq (bls : List ℚ) (p : Path) (ri : Nat) (d : ℚ)
    (hc : isWaveformCandidate p = true) (h1 : p.items.length ≠ 1)
    (he : ¬ (extractPoints p.items).isEmpty)
    (hb : bestRow (meanY (extractPoints p.items)) bls = some (ri, d))
    (hd : d < 80) :
    pathContribution bls p = some (ri, extractPoints p.items) := by
  rw [pathContribution, if_neg (by simp [hc]), if_neg h1, if_neg he, hb]
  exact if_pos hd

lemma gridPath_no_contribution (bls : List ℚ) :
    pathContribution bls gridPath = none := by
  rw [pathContribution, if_pos]
  norm_num [isWaveformCandidate, gridPath]

lemma wave0_contribution : pathContribution demoBaselines wave0 = some (0, pts0) := by
  have hc : isWaveformCandidate wave0 = true := by
    norm_num [isWaveformCandidate, widthOk, effWidth, wave0, wseg]
  have hlen : wave0.items.length ≠ 1 := by
    norm_num [wave0, wseg]
  have he : ¬ (extractPoints wave0.items).isEmpty := by
    rw [extractPoints_wave0]
    simp [pts0]
  have hm : meanY (extractPoints wave0.items) = 100 := by
    rw [extractPoints_wave0]
    refine meanY_eq_of_const _ _ ?_ (by simp [pts0])
    intro p hp
    simp only [pts0, List.mem_append, List.mem_replicate] at hp
    rcases hp with ⟨_, rfl⟩ | ⟨_, rfl⟩ | ⟨_, rfl⟩ <;> rfl
  have hb : bestRow (meanY (extractPoints wave0.items)) demoBaselines = some (0, 0) := by
    rw [hm]
    show bestRowLoop 100 demoBaselines 0 none = some (0, 0)
    norm_num [demoBaselines, bestRowLoop]
  rw [pathContribution_eq demoBaselines wave0 0 0 hc hlen he hb (by norm_num),
    extractPoints_wave0]

lemma wave2_contribution : pathContribution demoBaselines wave2 = some (2, pts2) := by
  have hc : isWaveformCandidate wave2 = true := by
    norm_num [isWaveformCandidate, widthOk, effWidth, wave2, wseg]
  have hlen : wave2.items.length ≠ 1 := by
    norm_num [wave2, wseg]
  have he : ¬ (extractPoints wave2.items).isEmpty := by
    rw [extractPoints_wave2]
    simp [pts2]
  have hm : meanY (extractPoints wave2.items) = 500 := by
    rw [extractPoints_wave2]
    refine meanY_eq_of_const _ _ ?_ (by simp [pts2])
    intro p hp
    simp only [pts2, List.mem_append, List.mem_replicate] at hp
    rcases hp with ⟨_, rfl⟩ | ⟨_, rfl⟩ <;> rfl
  have hb : bestRow (meanY (extractPoints wave2.items)) demoBaselines = some (2, 0) := by
    rw [hm]
    show bestRowLoop 500 demoBaselines 0 none = some (2, 0)
    norm_num [demoBaselines, bestRowLoop]
  rw [pathContribution_eq demoBaselines wave2 2 0 hc hlen he hb (by norm_num),
    extractPoints_wave2]

lemma wave3_contribution : pathContribution demoBaselines wave3 = some (3, pts3) := by
  have hc : isWaveformCandidate wave3 = true := by
    norm_num [isWaveformCandidate, widthOk, effWidth, wave3, wseg]
  have hlen : wave3.items.length ≠ 1 := by
    norm_num [wave3, wseg]
  have he : ¬ (extractPoints wave3.items).isEmpty := by
    rw [extractPoints_wave3]
    simp [pts3]
  have hm : meanY (extractPoints wave3.items) = 700 := by
    rw [extractPoints_wave3]
    refine meanY_eq_of_const _ _ ?_ (by simp [pts3])
    intro p hp
    simp only [pts3, List.mem_append, List.mem_replicate] at hp
    rcases hp with ⟨_, rfl⟩ | ⟨_, rfl⟩ | ⟨_, rfl⟩ | ⟨_, rfl⟩ <;> rfl
  have hb : bestRow (meanY (extractPoints wave3.items)) demoBaselines = some (3, 0) := by
    rw [hm]
    show bestRowLoop 700 demoBaselines 0 none = some (3, 0)
    norm_num [demoBaselines, bestRowLoop]
  rw [pathContribution_eq demoBaselines wave3 3 0 hc hlen he hb (by norm_num),
    extractPoints_wave3]

lemma rows_demoWave :
    extract_ecg_waveform_rows demoWavePaths demoBaselines = [pts0, [], pts2, pts3] := by
  rw [extract_ecg_waveform_rows]
  simp only [demoWavePaths, List.foldl_cons, List.foldl_nil, stepRows,
    gridPath_no_contribution, wave0_contribution, wave2_contribution,
    wave3_contribution]
  rw [show appendAt (appendAt (appendAt
      (List.replicate demoBaselines.length ([] : List Point)) 0 pts0) 2 pts2) 3 pts3
    = [pts0, [], pts2, pts3] from rfl]
  rw [List.map_cons, List.map_cons, List.map_cons, List.map_cons, List.map_nil,
    sortByX_pts0, sortByX_pts2, sortByX_pts3]
  rfl

/-- What the demo page hands to the EDF sink. -/
def demoOutput : Output :=
  { signal := [0, 0, 0, 0, 0, 0, 0, 0, 0]
    durationSec := 3/100
    physMin := -(1/10)
    physMax := 1/10 }

lemma rowVoltages_pts0 : rowVoltages 100 pts0 = [0, 0, 0] := by
  rw [rowVoltages, if_neg (by simp [pts0]), dedup_pts0]
  norm_num [points_to_voltage, CAL_PT_PER_MV]

lemma rowVoltages_pts2 : rowVoltages 500 pts2 = [0, 0] := by
  rw [rowVoltages, if_neg (by simp [pts2]), dedup_pts2]
  norm_num [points_to_voltage, CAL_PT_PER_MV]

lemma rowVoltages_pts3 : rowVoltages 700 pts3 = [0, 0, 0, 0] := by
  rw [rowVoltages, if_neg (by simp [pts3]), dedup_pts3]
  norm_num [points_to_voltage, CAL_PT_PER_MV]

lemma buildSignal_demo :
    buildSignal demoBaselines [pts0, [], pts2, pts3]
      = [0, 0, 0, 0, 0, 0, 0, 0, 0] := by
  rw [buildSignal, demoBaselines]
  rw [show List.zipWith rowVoltages [(100 : ℚ), 300, 500, 700] [pts0, [], pts2, pts3]
    = [rowVoltages 100 pts0, rowVoltages 300 [], rowVoltages 500 pts2,
       rowVoltages 700 pts3] from rfl]
  rw [rowVoltages_pts0, rowVoltages_pts2, rowVoltages_pts3,
    show rowVoltages 300 [] = [] from rfl]
  rfl

lemma runMain_demoWavePaths : runMain demoWavePaths = Except.ok demoOutput := by
  have hb : extract_baselines demoWavePaths = some demoBaselines := by
    rw [demoBaselines]
    norm_num [demoWavePaths, extract_baselines, isBaselineCandidate, widthOk,
      effWidth, visibleYs, yValues, List.filterMap_cons, lineYValue, hline, gridPath]
  rw [runMain_some demoWavePaths demoBaselines hb, rows_demoWave, buildSignal_demo,
    mkOutput]
  have hmin : ([0, 0, 0, 0, 0, 0, 0, 0, 0] : List ℚ).min? = some 0 := by
    simp [List.min?]
  have hmax : ([0, 0, 0, 0, 0, 0, 0, 0, 0] : List ℚ).max? = some 0 := by
    simp [List.max?]
  simp only [hmin, hmax]
  rw [demoOutput]
  norm_num [SAMPLE_RATE, Output.mk.injEq]

/-- C7: the final signal is the concatenation of the per-row voltage
sequences in row order 0–3 (never reordered): its length is the sum of the
rows' deduplicated sample counts and index `i` reads from the row whose
count interval contains it; on the demo page whose rows dedup to
(3, 0, 2, 4) samples, the empty row 1 is skipped, the run succeeds, and the
signal has exactly 9 samples with reported duration 9/300 seconds. -/
theorem signal_concatenation_order (b0 b1 b2 b3 : ℚ) (r0 r1 r2 r3 : List Point) :
    (buildSignal [b0, b1, b2, b3] [r0, r1, r2, r3]
      = rowVoltages b0 r0 ++ (rowVoltages b1 r1 ++ (rowVoltages b2 r2 ++ rowVoltages b3 r3))) ∧
    ((buildSignal [b0, b1, b2, b3] [r0, r1, r2, r3]).length
      = (dedup r0).length + (dedup r1).length + (dedup r2).length + (dedup r3).length) ∧
    (∀ i, i < (dedup r0).length →
      (buildSignal [b0, b1, b2, b3] [r0, r1, r2, r3])[i]? = (rowVoltages b0 r0)[i]?) ∧
    (∀ i, (dedup r0).length ≤ i → i < (dedup r0).length + (dedup r1).length →
      (buildSignal [b0, b1, b2, b3] [r0, r1, r2, r3])[i]?
        = (rowVoltages b1 r1)[i - (dedup r0).length]?) ∧
    (∀ i, (dedup r0).length + (dedup r1).length ≤ i →
        i < (dedup r0).length + (dedup r1).length + (dedup r2).length →
      (buildSignal [b0, b1, b2, b3] [r0, r1, r2, r3])[i]?
        = (rowVoltages b2 r2)[i - ((dedup r0).length + (dedup r1).length)]?) ∧
    (∀ i, (dedup r0).length + (dedup r1).length + (dedup r2).length ≤ i →
        i < (dedup r0).length + (dedup r1).length + (dedup r2).length + (dedup r3).length →
      (buildSignal [b0, b1, b2, b3] [r0, r1, r2, r3])[i]?
        = (rowVoltages b3 r3)[i - ((dedup r0).length + (dedup r1).length + (dedup r2).length)]?) ∧
    (extract_ecg_waveform_rows demoWavePaths demoBaselines = [pts0, [], pts2, pts3] ∧
     (dedup pts0).length = 3 ∧ (dedup pts2).length = 2 ∧ (dedup pts3).length = 4 ∧
     runMain demoWavePaths = Except.ok demoOutput ∧
     demoOutput.signal.length = 9 ∧ demoOutput.durationSec = 9 / 300) := by
  have hs : buildSignal [b0, b1, b2, b3] [r0, r1, r2, r3]
      = rowVoltages b0 r0 ++ (rowVoltages b1 r1 ++ (rowVoltages b2 r2 ++ rowVoltages b3 r3)) := by
    rw [buildSignal]
    simp
  refine ⟨hs, ?_, ?_, ?_, ?_, ?_, ?_⟩
  · rw [hs]
    simp only [List.length_append, length_rowVoltages]
    omega
  · intro i hi
    rw [hs, List.getElem?_append_left (by rw [length_rowVoltages]; exact hi)]
  · intro i h1 h2
    rw [hs, List.getElem?_append_right (by rw [length_rowVoltages]; exact h1),
      length_rowVoltages,
      List.getElem?_append_left (by rw [length_rowVoltages]; omega)]
  · intro i h1 h2
    rw [hs, List.getElem?_append_right (by rw [length_rowVoltages]; omega),
      length_rowVoltages,
      List.getElem?_append_right (by rw [length_rowVoltages]; omega),
      length_rowVoltages,
      List.getElem?_append_left (by rw [length_rowVoltages]; omega)]
    congr 1
    omega
  · intro i h1 h2
    rw [hs, List.getElem?_append_right (by rw [length_rowVoltages]; omega),
      length_rowVoltages,
      List.getElem?_append_right (by rw [length_rowVoltages]; omega),
      length_rowVoltages,
      List.getElem?_append_right (by rw [length_rowVoltages]; omega),
      length_rowVoltages]
    congr 1
    omega
  · refine ⟨rows_demoWave, by rw [dedup_pts0]; rfl, by rw [dedup_pts2]; rfl, by rw [dedup_pts3]; rfl,
      runMain_demoWavePaths, rfl, by norm_num [demoOutput]⟩

/-- Closed instance of `signal_concatenation_order`: sample 0 of a signal
whose first row holds one point reads from row 0. -/
theorem signal_concatenation_order_witness :
    (buildSignal [(1 : ℚ), 2, 3, 4] [[⟨5, 6⟩], [], [], []])[0]?
      = (rowVoltages 1 [⟨5, 6⟩])[0]? :=
  (signal_concatenation_order 1 2 3 4 [⟨5, 6⟩] [] [] []).2.2.1 0
    (by simp [dedup, dedupAux])

/-- Closed instance of `phys_range_margin` on the demo page: the written
range is [0 − 0.1, 0 + 0.1]. -/
theorem phys_range_margin_witness :
    demoOutput.signal ≠ [] ∧
    ∃ mn mx, demoOutput.signal.min? = some mn ∧ demoOutput.signal.max? = some mx ∧
      demoOutput.physMin = mn - 1/10 ∧ demoOutput.physMax = mx + 1/10 :=
  phys_range_margin demoWavePaths demoOutput runMain_demoWavePaths

end Ecg
